import Mathlib

/-!
Shallow embedding of `src/julia_reimpl.rs`, an agent-based SIR-with-death
simulation on a discrete 2D grid (a Rust port of bkamins' Julia SIR code).

Machine integers (`usize`) are modelled as `Nat`; the one place where wrapping
can occur (`wrapping_add` in `Agent::move_agent`) carries an explicit
`% 2 ^ 64`.  `saturating_sub` is exactly `Nat` subtraction.  The thread-local
random generator is modelled as an explicit source: a stream of naturals (for
the integer samplers and the fair Bernoulli) and a stream of rationals (for
`gen_bool(p_death)`, whose draw succeeds exactly when the drawn value is
below `p`), consumed at an increasing index, so every draw happens in the
program's fixed iteration order.  The `f64` probability `p_death` is modelled
as `ℚ`.  `HashMap<(usize, usize), Vec<usize>>` is modelled as a function from
cells to `Option (List Nat)` (`none` = key absent); `entry/and_modify/or_insert`
becomes `gridInsert`, `drain` becomes the empty grid.  Panics of `init`
(`Uniform::new` on an empty range, the debug-mode underflow of `n - infected`)
are modelled with `Except`.
-/

/-- Source of randomness: a stream of naturals for the integer samplers and
the fair coin, and a stream of rationals for `gen_bool(p_death)`. -/
structure RandomSource where
  nats : Nat → Nat
  probs : Nat → ℚ

/-- A generator is a source plus the index of the next draw. -/
structure Rng where
  src : RandomSource
  idx : Nat

/-- Draw the next natural from the stream. -/
def Rng.nextNat (r : Rng) : Nat × Rng :=
  (r.src.nats r.idx, ⟨r.src, r.idx + 1⟩)

/-- Model of `rand_distr::Uniform::new(lo, hi)` sampling: a value in `[lo, hi)`
(requires `lo < hi` in Rust; the caller checks that before use). -/
def Rng.sampleUniform (r : Rng) (lo hi : Nat) : Nat × Rng :=
  let n := r.nextNat
  (lo + n.1 % (hi - lo), n.2)

/-- Model of `rand_distr::Uniform::new_inclusive(lo, hi)` sampling: a value in
`[lo, hi]`. -/
def Rng.sampleUniformIncl (r : Rng) (lo hi : Nat) : Nat × Rng :=
  let n := r.nextNat
  (lo + n.1 % (hi - lo + 1), n.2)

/-- Model of sampling `rand::distributions::Bernoulli::new(0.5)`. -/
def Rng.bernoulliHalf (r : Rng) : Bool × Rng :=
  let n := r.nextNat
  (decide (n.1 % 2 = 1), n.2)

/-- Model of `rng.gen_bool(p)`: the draw is `true` exactly when the drawn
rational lies below `p`. -/
def Rng.genBool (r : Rng) (p : ℚ) : Bool × Rng :=
  (decide (r.src.probs r.idx < p), ⟨r.src, r.idx + 1⟩)

/-- `AgentType` from the source: the four SIRD compartments. -/
inductive AgentType where
  /-- Susceptible -/
  | AgentS
  /-- Infected -/
  | AgentI
  /-- Recovered -/
  | AgentR
  /-- Dead -/
  | AgentD
deriving DecidableEq

/-- `Agent` from the source: position, compartment, and the tick at which the
agent entered its current compartment. -/
structure Agent where
  x : Nat
  y : Nat
  agent_type : AgentType
  tick : Nat
deriving DecidableEq

/-- `Agent::die`. -/
def Agent.die (a : Agent) (tick : Nat) : Agent :=
  { a with agent_type := AgentType.AgentD, tick := tick }

/-- `Agent::recover`. -/
def Agent.recover (a : Agent) (tick : Nat) : Agent :=
  { a with agent_type := AgentType.AgentR, tick := tick }

/-- `Agent::infect`. -/
def Agent.infect (a : Agent) (tick : Nat) : Agent :=
  { a with agent_type := AgentType.AgentI, tick := tick }

/-- `usize::MAX + 1`: the modulus of `wrapping_add` on a 64-bit target. -/
def USIZE : Nat := 2 ^ 64

/-- `Agent::move_agent`: a no-op for dead agents; otherwise, per axis, a fair
coin chooses between `wrapping_add` of a step drawn from `{0, 1}` followed by
`% dim`, and `saturating_sub` of such a step followed by `% dim`.  Both
branches consume one coin draw and one step draw, in the source's order
(x-coin, x-step, y-coin, y-step). -/
def Agent.move_agent (a : Agent) (grid_dimension : Nat × Nat) (rng : Rng) : Agent × Rng :=
  if a.agent_type = AgentType.AgentD then (a, rng)
  else
    let bx := rng.bernoulliHalf
    let sx := bx.2.sampleUniformIncl 0 1
    let x' := if bx.1 then ((a.x + sx.1) % USIZE) % grid_dimension.1
              else (a.x - sx.1) % grid_dimension.1
    let by_ := sx.2.bernoulliHalf
    let sy := by_.2.sampleUniformIncl 0 1
    let y' := if by_.1 then ((a.y + sy.1) % USIZE) % grid_dimension.2
              else (a.y - sy.1) % grid_dimension.2
    ({ a with x := x', y := y' }, sy.2)

/-- The spatial index: `HashMap<(usize, usize), Vec<usize>>` as a function from
cells to an optional occupancy list (`none` = key absent). -/
abbrev Grid := Nat × Nat → Option (List Nat)

/-- The empty map (also the result of `grid.drain()`). -/
def emptyGrid : Grid := fun _ => none

/-- `grid.entry(key).and_modify(|v| v.push(i)).or_insert_with(|| vec![i])`. -/
def gridInsert (g : Grid) (key : Nat × Nat) (i : Nat) : Grid :=
  fun c => if c = key then some ((g key).getD [] ++ [i]) else g c

/-- Register a list of (index, agent) pairs in the grid, in order. -/
def registerAll (pairs : List (Nat × Agent)) (g : Grid) : Grid :=
  pairs.foldl (fun acc p => gridInsert acc (p.2.x, p.2.y) p.1) g

/-- `TallyStates` from the source: the per-tick compartment census. -/
structure TallyStates where
  susceptible : Nat
  infected : Nat
  recovered : Nat
  dead : Nat
deriving DecidableEq

/-- `TallyStates::default()`. -/
def TallyStates.default : TallyStates := ⟨0, 0, 0, 0⟩

/-- `Environment` from the source: the grid index, grid dimensions, the agent
population, the infection parameters, the cached tally and the current tick. -/
structure Environment where
  grid : Grid
  grid_size : Nat × Nat
  agents : List Agent
  duration : Nat
  p_death : ℚ
  stats : TallyStates
  tick : Nat

/-- The agent list built by `Environment::init`: `count` agents starting at
index `i`, each drawing x then y uniformly below the grid bounds, with
compartment `AgentI` when `i <= infected` (the source's comparison, 0-based)
and `AgentS` otherwise, all with `tick = 0`. -/
def initAgents (infected xdim ydim : Nat) : Nat → Nat → Rng → List Agent × Rng
  | 0, _, rng => ([], rng)
  | count + 1, i, rng =>
    let xv := rng.sampleUniform 0 xdim
    let yv := xv.2.sampleUniform 0 ydim
    let a : Agent :=
      { x := xv.1, y := yv.1,
        agent_type := if i ≤ infected then AgentType.AgentI else AgentType.AgentS,
        tick := 0 }
    let r := initAgents infected xdim ydim count (i + 1) yv.2
    (a :: r.1, r.2)

/-- The success path of `Environment::init`: build the agents, register them in
the grid in index order, and set the cached tally to
`{n - infected, infected, 0, 0}`. -/
def Environment.initCore (n infected duration : Nat) (p_death : ℚ) (xdim ydim : Nat)
    (rng : Rng) : Environment × Rng :=
  let r := initAgents infected xdim ydim n 0 rng
  ({ grid := registerAll r.1.enum emptyGrid,
     grid_size := (xdim, ydim),
     agents := r.1,
     duration := duration,
     p_death := p_death,
     stats := { susceptible := n - infected, infected := infected,
                recovered := 0, dead := 0 },
     tick := 0 }, r.2)

/-- `Environment::init`.  The source performs no validation; the `Except`
captures its panics: `Uniform::new(0, dim)` panics when `dim = 0`, and the
tally subtraction `n - infected` overflows (debug panic) when `infected > n`.
For `p_death` there is no check of any kind. -/
def Environment.init (n infected duration : Nat) (p_death : ℚ) (xdim ydim : Nat)
    (rng : Rng) : Except String (Environment × Rng) :=
  if xdim = 0 then Except.error "Uniform::new called with low >= high"
  else if ydim = 0 then Except.error "Uniform::new called with low >= high"
  else if n < infected then Except.error "attempt to subtract with overflow"
  else Except.ok (Environment.initCore n infected duration p_death xdim ydim rng)

/-- `Environment::get_statistics`: fold the population into a tally. -/
def Environment.get_statistics (e : Environment) : TallyStates :=
  e.agents.foldl
    (fun acc a =>
      match a.agent_type with
      | AgentType.AgentS => { acc with susceptible := acc.susceptible + 1 }
      | AgentType.AgentI => { acc with infected := acc.infected + 1 }
      | AgentType.AgentR => { acc with recovered := acc.recovered + 1 }
      | AgentType.AgentD => { acc with dead := acc.dead + 1 })
    TallyStates.default

/-- The out-of-range default for indexing the agent vector; iteration in the
source never reaches it. -/
def defaultAgent : Agent := { x := 0, y := 0, agent_type := AgentType.AgentS, tick := 0 }

/-- `self.agents[i]` (total model of vector indexing). -/
def getAgent (agents : List Agent) (i : Nat) : Agent :=
  agents.getD i defaultAgent

/-- The inner contact loop of `Environment::update_type`: for each index `j`
in the occupancy list, infect it if it is currently susceptible.  Later
iterations see earlier infections (the source mutates in place). -/
def infectAll (tick : Nat) (agents : List Agent) : List Nat → List Agent
  | [] => agents
  | j :: rest =>
    let agents' :=
      if (getAgent agents j).agent_type = AgentType.AgentS
      then agents.set j ((getAgent agents j).infect tick)
      else agents
    infectAll tick agents' rest

/-- One iteration of the loop body of `Environment::update_type` at index `i`:
only infected agents act; past the infectious window they draw
`gen_bool(p_death)` and die or recover; newly infected agents (entry tick
equal to the current tick) are skipped; otherwise every susceptible agent in
the same grid cell is infected. -/
def updateStep (duration : Nat) (p_death : ℚ) (tick : Nat) (grid : Grid)
    (acc : List Agent × Rng) (i : Nat) : List Agent × Rng :=
  let agents := acc.1
  let rng := acc.2
  let a := getAgent agents i
  if a.agent_type = AgentType.AgentI then
    if duration < tick - a.tick then
      let b := rng.genBool p_death
      (agents.set i (if b.1 then a.die tick else a.recover tick), b.2)
    else if tick = a.tick then (agents, rng)
    else (infectAll tick agents ((grid (a.x, a.y)).getD []), rng)
  else (agents, rng)

/-- `Environment::update_type`: the loop over `0..agents.len()`. -/
def Environment.update_type (e : Environment) (rng : Rng) : Environment × Rng :=
  let res := (List.range e.agents.length).foldl
    (updateStep e.duration e.p_death e.tick e.grid) (e.agents, rng)
  ({ e with agents := res.1 }, res.2)

/-- The recursion inside `move_all`: move each agent in index order and insert
its new position into the grid being rebuilt. -/
def moveAllAux (d : Nat × Nat) : List Agent → Nat → Grid → Rng → List Agent × Grid × Rng
  | [], _, g, rng => ([], g, rng)
  | a :: rest, i, g, rng =>
    let m := a.move_agent d rng
    let g' := gridInsert g (m.1.x, m.1.y) i
    let r := moveAllAux d rest (i + 1) g' m.2
    (m.1 :: r.1, r.2.1, r.2.2)

/-- `move_all`: drain the grid, then move every agent and re-register it. -/
def move_all (e : Environment) (rng : Rng) : Environment × Rng :=
  let res := moveAllAux e.grid_size e.agents 0 emptyGrid rng
  ({ e with agents := res.1, grid := res.2.1 }, res.2.2)

/-- The body of the `while` loop of `Environment::run`: increment the tick,
run the transition pass, run the movement pass, recompute the cached tally. -/
def stepOnce (e : Environment) (rng : Rng) : Environment × Rng :=
  let e1 := { e with tick := e.tick + 1 }
  let r1 := e1.update_type rng
  let r2 := move_all r1.1 r1.2
  ({ r2.1 with stats := r2.1.get_statistics }, r2.2)

/-- The `while self.stats.infected > 0` loop of `Environment::run`, with
explicit fuel; returns the recorded tallies of the executed iterations, the
final environment and the final generator. -/
def runAux : Nat → Environment → Rng → List TallyStates × Environment × Rng
  | 0, e, rng => ([], e, rng)
  | fuel + 1, e, rng =>
    if 0 < e.stats.infected then
      let s := stepOnce e rng
      let rest := runAux fuel s.1 s.2
      (s.1.stats :: rest.1, rest.2)
    else ([], e, rng)

/-- `Environment::run`: the initial cached tally followed by one tally per
executed tick. -/
def Environment.run (fuel : Nat) (e : Environment) (rng : Rng) :
    List TallyStates × Environment × Rng :=
  let rest := runAux fuel e rng
  (e.stats :: rest.1, rest.2)

/-- One tick as a transformation of the (environment, generator) pair, for
iterating. -/
def stepPair (p : Environment × Rng) : Environment × Rng :=
  stepOnce p.1 p.2

/-- The state of the simulation after `m` ticks. -/
def simTrace (e : Environment) (rng : Rng) (m : Nat) : Environment × Rng :=
  stepPair^[m] (e, rng)

/-- Number of agents of a given compartment in a population. -/
def countType (t : AgentType) (l : List Agent) : Nat :=
  l.countP (fun a => decide (a.agent_type = t))

/-- Potential of one agent toward termination: `Susceptible` can still be
infected (`duration + 3`), an infected agent has at most
`entry + duration + 2 - tick` ticks of activity left, recovered and dead
agents contribute nothing. -/
def pot (duration tick : Nat) (a : Agent) : Nat :=
  match a.agent_type with
  | AgentType.AgentS => duration + 3
  | AgentType.AgentI => a.tick + duration + 2 - tick
  | AgentType.AgentR => 0
  | AgentType.AgentD => 0

/-- Termination measure of an environment: total remaining potential. -/
def simMeasure (e : Environment) : Nat :=
  (e.agents.map (pot e.duration e.tick)).sum

/-- Whole-program wrapper: construct with `Environment::init` from a seedable
source (started at index 0) and run to termination; `none` when `init`
panics. -/
def simulate (n infected duration : Nat) (p_death : ℚ) (xdim ydim : Nat)
    (src : RandomSource) (fuel : Nat) : Option (List TallyStates) :=
  match Environment.init n infected duration p_death xdim ydim ⟨src, 0⟩ with
  | Except.ok er => some (Environment.run fuel er.1 er.2).1
  | Except.error _ => none

/-- An all-zeros source, used to exercise the definitions at concrete inputs. -/
def zeroSource : RandomSource := ⟨fun _ => 0, fun _ => 0⟩

/-! ### Basic facts about indexing and counting -/

theorem getAgent_nil (i : Nat) : getAgent [] i = defaultAgent := by
  cases i <;> rfl

theorem getAgent_cons_zero (a : Agent) (l : List Agent) : getAgent (a :: l) 0 = a := rfl

theorem getAgent_cons_succ (a : Agent) (l : List Agent) (i : Nat) :
    getAgent (a :: l) (i + 1) = getAgent l i := rfl

theorem getAgent_set (l : List Agent) (i j : Nat) (a : Agent) :
    getAgent (l.set i a) j = if i = j ∧ i < l.length then a else getAgent l j := by
  induction l generalizing i j with
  | nil => simp [getAgent_nil]
  | cons b t ih =>
    cases i with
    | zero =>
      cases j with
      | zero => simp [List.set, getAgent_cons_zero]
      | succ j => simp [List.set, getAgent_cons_succ]
    | succ i =>
      cases j with
      | zero => simp [List.set, getAgent_cons_zero]
      | succ j =>
        simp only [List.set, getAgent_cons_succ, ih, List.length_cons]
        have h : (i = j ∧ i < t.length) ↔ (i + 1 = j + 1 ∧ i + 1 < t.length + 1) := by omega
        rw [if_congr h rfl rfl]

theorem exists_index_of_mem {l : List Agent} {a : Agent} (h : a ∈ l) :
    ∃ i, i < l.length ∧ getAgent l i = a := by
  induction l with
  | nil => cases h
  | cons b t ih =>
    rcases List.mem_cons.1 h with rfl | h'
    · exact ⟨0, by simp, rfl⟩
    · obtain ⟨i, hi, hget⟩ := ih h'
      exact ⟨i + 1, by simpa using Nat.succ_lt_succ hi, hget⟩

theorem mem_of_index {l : List Agent} {i : Nat} (h : i < l.length) : getAgent l i ∈ l := by
  induction l generalizing i with
  | nil => simp at h
  | cons b t ih =>
    cases i with
    | zero => simp [getAgent_cons_zero]
    | succ i =>
      rw [getAgent_cons_succ]
      exact List.mem_cons_of_mem _ (ih (by simpa using Nat.lt_of_succ_lt_succ h))

theorem countType_cons (t : AgentType) (a : Agent) (l : List Agent) :
    countType t (a :: l) = countType t l + (if a.agent_type = t then 1 else 0) := by
  simp [countType, List.countP_cons]

theorem countType_nil (t : AgentType) : countType t [] = 0 := rfl

theorem countType_sum (l : List Agent) :
    countType AgentType.AgentS l + countType AgentType.AgentI l +
      countType AgentType.AgentR l + countType AgentType.AgentD l = l.length := by
  induction l with
  | nil => rfl
  | cons a t ih =>
    cases h : a.agent_type <;> simp [countType_cons, h] <;> omega

theorem countType_ne_zero {t : AgentType} {l : List Agent} :
    countType t l ≠ 0 ↔ ∃ a ∈ l, a.agent_type = t := by
  rw [countType, ← Nat.pos_iff_ne_zero, List.countP_pos_iff]
  simp

/-- The tally fold of `get_statistics`, characterised from any accumulator. -/
theorem foldl_tally (l : List Agent) (acc : TallyStates) :
    l.foldl
      (fun acc a =>
        match a.agent_type with
        | AgentType.AgentS => { acc with susceptible := acc.susceptible + 1 }
        | AgentType.AgentI => { acc with infected := acc.infected + 1 }
        | AgentType.AgentR => { acc with recovered := acc.recovered + 1 }
        | AgentType.AgentD => { acc with dead := acc.dead + 1 })
      acc =
    ⟨acc.susceptible + countType AgentType.AgentS l,
     acc.infected + countType AgentType.AgentI l,
     acc.recovered + countType AgentType.AgentR l,
     acc.dead + countType AgentType.AgentD l⟩ := by
  induction l generalizing acc with
  | nil => simp [countType_nil]
  | cons a t ih =>
    cases h : a.agent_type <;>
      simp [List.foldl_cons, h, ih, countType_cons] <;> omega

theorem get_statistics_eq (e : Environment) :
    e.get_statistics =
      ⟨countType AgentType.AgentS e.agents, countType AgentType.AgentI e.agents,
       countType AgentType.AgentR e.agents, countType AgentType.AgentD e.agents⟩ := by
  rw [Environment.get_statistics, foldl_tally]
  simp [TallyStates.default]

theorem get_statistics_sum (e : Environment) :
    e.get_statistics.susceptible + e.get_statistics.infected +
      e.get_statistics.recovered + e.get_statistics.dead = e.agents.length := by
  rw [get_statistics_eq]
  exact countType_sum e.agents

/-! ### Effect of the transition pass on a single agent -/

theorem Agent.infect_agent_type (a : Agent) (t : Nat) :
    (a.infect t).agent_type = AgentType.AgentI := rfl

theorem Agent.infect_tick (a : Agent) (t : Nat) : (a.infect t).tick = t := rfl

theorem Agent.die_agent_type (a : Agent) (t : Nat) :
    (a.die t).agent_type = AgentType.AgentD := rfl

theorem Agent.recover_agent_type (a : Agent) (t : Nat) :
    (a.recover t).agent_type = AgentType.AgentR := rfl

/-- What one transition pass at tick `T` may do to a single agent: leave it
unchanged (and an unchanged infected agent is inside the infectious window),
infect a susceptible agent, or resolve an infected agent by death or
recovery. -/
def agentStep (T D : Nat) (a b : Agent) : Prop :=
  (b = a ∧ (a.agent_type = AgentType.AgentI → T - a.tick ≤ D)) ∨
  (a.agent_type = AgentType.AgentS ∧ b = a.infect T) ∨
  (a.agent_type = AgentType.AgentI ∧ (b = a.die T ∨ b = a.recover T))

theorem infectAll_length (tick : Nat) (agents : List Agent) (l : List Nat) :
    (infectAll tick agents l).length = agents.length := by
  induction l generalizing agents with
  | nil => rfl
  | cons j rest ih =>
    rw [infectAll]
    split
    · rw [ih, List.length_set]
    · rw [ih]


theorem infectAll_get (tick : Nat) (agents : List Agent) (l : List Nat) (i : Nat) :
    getAgent (infectAll tick agents l) i = getAgent agents i ∨
    ((getAgent agents i).agent_type = AgentType.AgentS ∧
      getAgent (infectAll tick agents l) i = (getAgent agents i).infect tick) := by
  induction l generalizing agents with
  | nil => exact Or.inl rfl
  | cons j rest ih =>
    rw [infectAll]
    split
    · rename_i hS
      have h2 := ih (agents.set j ((getAgent agents j).infect tick))
      by_cases hc : j = i ∧ j < agents.length
      · have hset : getAgent (agents.set j ((getAgent agents j).infect tick)) i
            = (getAgent agents i).infect tick := by
          rw [getAgent_set, if_pos hc, hc.1]
        rcases h2 with h | ⟨hty, h⟩
        · rw [hset] at h
          exact Or.inr ⟨hc.1 ▸ hS, h⟩
        · rw [hset, Agent.infect_agent_type] at hty
          cases hty
      · have hset : getAgent (agents.set j ((getAgent agents j).infect tick)) i
            = getAgent agents i := by rw [getAgent_set, if_neg hc]
        rcases h2 with h | ⟨hty, h⟩
        · rw [hset] at h
          exact Or.inl h
        · rw [hset] at hty h
          exact Or.inr ⟨hty, h⟩
    · exact ih agents

theorem updateStep_not_infected {cur : List Agent} {rng : Rng} {k : Nat}
    (D : Nat) (p : ℚ) (T : Nat) (g : Grid)
    (h : (getAgent cur k).agent_type ≠ AgentType.AgentI) :
    updateStep D p T g (cur, rng) k = (cur, rng) := by
  simp [updateStep, h]

theorem updateStep_resolve {cur : List Agent} {rng : Rng} {k : Nat}
    (D : Nat) (p : ℚ) (T : Nat) (g : Grid)
    (hI : (getAgent cur k).agent_type = AgentType.AgentI)
    (hd : D < T - (getAgent cur k).tick) :
    updateStep D p T g (cur, rng) k =
      (cur.set k (if (rng.genBool p).1 then (getAgent cur k).die T
                  else (getAgent cur k).recover T), (rng.genBool p).2) := by
  simp [updateStep, Rng.genBool, hI, hd]

theorem updateStep_skip {cur : List Agent} {rng : Rng} {k : Nat}
    (D : Nat) (p : ℚ) (T : Nat) (g : Grid)
    (hI : (getAgent cur k).agent_type = AgentType.AgentI)
    (he : T = (getAgent cur k).tick) :
    updateStep D p T g (cur, rng) k = (cur, rng) := by
  simp [updateStep, hI, he]

theorem updateStep_spread {cur : List Agent} {rng : Rng} {k : Nat}
    (D : Nat) (p : ℚ) (T : Nat) (g : Grid)
    (hI : (getAgent cur k).agent_type = AgentType.AgentI)
    (hd : ¬ D < T - (getAgent cur k).tick) (he : T ≠ (getAgent cur k).tick) :
    updateStep D p T g (cur, rng) k =
      (infectAll T cur ((g ((getAgent cur k).x, (getAgent cur k).y)).getD []), rng) := by
  simp [updateStep, hI, hd, he]

/-- Invariant of the loop of `update_type` after the slots below `k` have been
processed: slots below `k` have received a full transition step, slots at or
above `k` are untouched except for infections coming from earlier slots. -/
def PassInv (T D : Nat) (orig : List Agent) (k : Nat) (cur : List Agent) : Prop :=
  cur.length = orig.length ∧
  (∀ i, i < k → agentStep T D (getAgent orig i) (getAgent cur i)) ∧
  (∀ i, k ≤ i → getAgent cur i = getAgent orig i ∨
    ((getAgent orig i).agent_type = AgentType.AgentS ∧
      getAgent cur i = (getAgent orig i).infect T))

theorem passInv_zero (T D : Nat) (orig : List Agent) : PassInv T D orig 0 orig :=
  ⟨rfl, fun i hi => absurd hi (Nat.not_lt_zero i), fun _ _ => Or.inl rfl⟩

theorem passInv_step (D : Nat) (p : ℚ) (T : Nat) (g : Grid) (orig cur : List Agent)
    (rng : Rng) (k : Nat) (h : PassInv T D orig k cur) :
    PassInv T D orig (k + 1) (updateStep D p T g (cur, rng) k).1 := by
  obtain ⟨hlen, hdone, htodo⟩ := h
  have hcurk := htodo k (Nat.le_refl k)
  by_cases hI : (getAgent cur k).agent_type = AgentType.AgentI
  · by_cases hd : D < T - (getAgent cur k).tick
    · rw [updateStep_resolve D p T g hI hd]
      refine ⟨by rw [List.length_set]; exact hlen, ?_, ?_⟩
      · intro i hi
        rcases Nat.lt_succ_iff_lt_or_eq.1 hi with hik | rfl
        · rw [getAgent_set, if_neg (by omega)]
          exact hdone i hik
        · have hklen : i < cur.length := by
            by_contra hno
            have hdef : getAgent cur i = defaultAgent := by
              unfold getAgent
              exact List.getD_eq_default _ _ (by omega)
            rw [hdef] at hI
            exact absurd hI (by simp [defaultAgent])
          rw [getAgent_set, if_pos ⟨rfl, hklen⟩]
          rcases hcurk with hck | ⟨hty, hck⟩
          · refine Or.inr (Or.inr ⟨by rw [← hck]; exact hI, ?_⟩)
            rw [hck]
            split
            · exact Or.inl rfl
            · exact Or.inr rfl
          · exfalso
            have ht : (getAgent cur i).tick = T := by rw [hck, Agent.infect_tick]
            rw [ht] at hd
            omega
      · intro i hi
        rw [getAgent_set, if_neg (by omega)]
        exact htodo i (by omega)
    · by_cases he : T = (getAgent cur k).tick
      · rw [updateStep_skip D p T g hI he]
        refine ⟨hlen, ?_, fun i hi => htodo i (by omega)⟩
        intro i hi
        rcases Nat.lt_succ_iff_lt_or_eq.1 hi with hik | rfl
        · exact hdone i hik
        · rcases hcurk with hck | ⟨hty, hck⟩
          · exact Or.inl ⟨hck, fun _ => by rw [← hck]; omega⟩
          · exact Or.inr (Or.inl ⟨hty, hck⟩)
      · rw [updateStep_spread D p T g hI hd he]
        refine ⟨by rw [infectAll_length]; exact hlen, ?_, ?_⟩
        · intro i hi
          rcases Nat.lt_succ_iff_lt_or_eq.1 hi with hik | rfl
          · rcases infectAll_get T cur _ i with hsame | ⟨hty, hinf⟩
            · rw [hsame]
              exact hdone i hik
            · rcases hdone i hik with ⟨hb, _⟩ | ⟨hS, hb⟩ | ⟨hIi, hb⟩
              · rw [hb] at hty hinf
                exact Or.inr (Or.inl ⟨hty, hinf⟩)
              · rw [hb, Agent.infect_agent_type] at hty
                cases hty
              · rcases hb with hb | hb <;> rw [hb] at hty <;>
                  simp [Agent.die_agent_type, Agent.recover_agent_type] at hty
          · rcases infectAll_get T cur _ i with hsame | ⟨hty, _⟩
            · rw [hsame]
              rcases hcurk with hck | ⟨hty', hck⟩
              · exact Or.inl ⟨hck, fun _ => by rw [← hck]; omega⟩
              · exact absurd (by rw [hck, Agent.infect_tick]) he
            · rw [hI] at hty
              cases hty
        · intro i hi
          rcases infectAll_get T cur _ i with hsame | ⟨hty, hinf⟩
          · rw [hsame]
            exact htodo i (by omega)
          · rcases htodo i (by omega) with hck | ⟨hty', hck⟩
            · rw [hck] at hty hinf
              exact Or.inr ⟨hty, hinf⟩
            · rw [hck, Agent.infect_agent_type] at hty
              cases hty
  · rw [updateStep_not_infected D p T g hI]
    refine ⟨hlen, ?_, fun i hi => htodo i (by omega)⟩
    intro i hi
    rcases Nat.lt_succ_iff_lt_or_eq.1 hi with hik | rfl
    · exact hdone i hik
    · rcases hcurk with hck | ⟨hty, hck⟩
      · exact Or.inl ⟨hck, fun hIi => absurd (by rw [hck]; exact hIi) hI⟩
      · exact absurd (by rw [hck, Agent.infect_agent_type]) hI

theorem passInv_fold (D : Nat) (p : ℚ) (T : Nat) (g : Grid) (orig : List Agent)
    (rng : Rng) (k : Nat) :
    PassInv T D orig k ((List.range k).foldl (updateStep D p T g) (orig, rng)).1 := by
  induction k with
  | zero =>
    simp only [List.range_zero, List.foldl_nil]
    exact passInv_zero T D orig
  | succ k ih =>
    rw [List.range_succ, List.foldl_append, List.foldl_cons, List.foldl_nil]
    exact passInv_step D p T g orig _ _ k ih

theorem update_type_agents (e : Environment) (rng : Rng) :
    (e.update_type rng).1.agents =
      ((List.range e.agents.length).foldl
        (updateStep e.duration e.p_death e.tick e.grid) (e.agents, rng)).1 := rfl

theorem update_type_grid (e : Environment) (rng : Rng) :
    (e.update_type rng).1.grid = e.grid := rfl

theorem update_type_tick (e : Environment) (rng : Rng) :
    (e.update_type rng).1.tick = e.tick := rfl

theorem update_type_grid_size (e : Environment) (rng : Rng) :
    (e.update_type rng).1.grid_size = e.grid_size := rfl

theorem update_type_duration (e : Environment) (rng : Rng) :
    (e.update_type rng).1.duration = e.duration := rfl

theorem update_type_length (e : Environment) (rng : Rng) :
    (e.update_type rng).1.agents.length = e.agents.length :=
  (passInv_fold e.duration e.p_death e.tick e.grid e.agents rng e.agents.length).1

theorem getAgent_default {l : List Agent} {i : Nat} (h : l.length ≤ i) :
    getAgent l i = defaultAgent := by
  unfold getAgent
  exact List.getD_eq_default _ _ h

theorem update_type_get (e : Environment) (rng : Rng) (i : Nat) :
    agentStep e.tick e.duration (getAgent e.agents i)
      (getAgent (e.update_type rng).1.agents i) := by
  have h := passInv_fold e.duration e.p_death e.tick e.grid e.agents rng e.agents.length
  rw [update_type_agents]
  by_cases hi : i < e.agents.length
  · exact h.2.1 i hi
  · rcases h.2.2 i (by omega) with hck | ⟨hty, hck⟩
    · have hdef := getAgent_default (l := e.agents) (i := i) (by omega)
      exact Or.inl ⟨hck, fun hIi => absurd hIi (by rw [hdef]; simp [defaultAgent])⟩
    · exact Or.inr (Or.inl ⟨hty, hck⟩)

/-! ### Consequences of a single transition step -/

theorem agentStep_pos {T D : Nat} {a b : Agent} (h : agentStep T D a b) :
    b.x = a.x ∧ b.y = a.y := by
  rcases h with ⟨rfl, _⟩ | ⟨_, rfl⟩ | ⟨_, rfl | rfl⟩ <;>
    simp [Agent.infect, Agent.die, Agent.recover]

theorem agentStep_type {T D : Nat} {a b : Agent} (h : agentStep T D a b) :
    b.agent_type = a.agent_type ∨
    (a.agent_type = AgentType.AgentS ∧ b.agent_type = AgentType.AgentI) ∨
    (a.agent_type = AgentType.AgentI ∧
      (b.agent_type = AgentType.AgentR ∨ b.agent_type = AgentType.AgentD)) := by
  rcases h with ⟨rfl, _⟩ | ⟨hS, rfl⟩ | ⟨hI, rfl | rfl⟩
  · exact Or.inl rfl
  · exact Or.inr (Or.inl ⟨hS, rfl⟩)
  · exact Or.inr (Or.inr ⟨hI, Or.inr rfl⟩)
  · exact Or.inr (Or.inr ⟨hI, Or.inl rfl⟩)

theorem agentStep_tick_le {T D : Nat} {a b : Agent} (h : agentStep T D a b)
    (ha : a.tick ≤ T) : b.tick ≤ T := by
  rcases h with ⟨rfl, _⟩ | ⟨_, rfl⟩ | ⟨_, rfl | rfl⟩ <;>
    simp [Agent.infect, Agent.die, Agent.recover, ha]

theorem agentStep_window {T D : Nat} {a b : Agent} (h : agentStep T D a b)
    (hb : b.agent_type = AgentType.AgentI) : T - b.tick ≤ D := by
  rcases h with ⟨rfl, hw⟩ | ⟨_, rfl⟩ | ⟨_, rfl | rfl⟩
  · exact hw hb
  · simp [Agent.infect]
  · rw [Agent.die_agent_type] at hb
    cases hb
  · rw [Agent.recover_agent_type] at hb
    cases hb

theorem agentStep_pot {T D : Nat} {a b : Agent} (h : agentStep (T + 1) D a b)
    (ha : a.tick ≤ T) (hw : a.agent_type = AgentType.AgentI → T - a.tick ≤ D) :
    pot D (T + 1) b ≤ pot D T a ∧
      (a.agent_type = AgentType.AgentI → pot D (T + 1) b < pot D T a) := by
  rcases h with ⟨rfl, hw'⟩ | ⟨hS, rfl⟩ | ⟨hI, rfl | rfl⟩
  · cases hty : b.agent_type <;> simp [pot, hty]
    have := hw hty
    omega
  · simp [pot, hS, Agent.infect, Agent.infect_agent_type]
    omega
  · have := hw hI
    simp [pot, hI, Agent.die, Agent.die_agent_type]
    omega
  · have := hw hI
    simp [pot, hI, Agent.recover, Agent.recover_agent_type]
    omega

/-! ### Movement: compartment and entry tick are untouched, positions stay in
range, and the index is rebuilt from the new positions -/

theorem move_agent_type (a : Agent) (d : Nat × Nat) (rng : Rng) :
    (a.move_agent d rng).1.agent_type = a.agent_type := by
  rw [Agent.move_agent]
  split <;> rfl

theorem move_agent_tick (a : Agent) (d : Nat × Nat) (rng : Rng) :
    (a.move_agent d rng).1.tick = a.tick := by
  rw [Agent.move_agent]
  split <;> rfl

theorem move_agent_bounds (a : Agent) (d : Nat × Nat) (rng : Rng)
    (hx : 0 < d.1) (hy : 0 < d.2) (hax : a.x < d.1) (hay : a.y < d.2) :
    (a.move_agent d rng).1.x < d.1 ∧ (a.move_agent d rng).1.y < d.2 := by
  rw [Agent.move_agent]
  split
  · exact ⟨hax, hay⟩
  · refine ⟨?_, ?_⟩ <;> dsimp only <;> split
    · exact Nat.mod_lt _ hx
    · exact Nat.mod_lt _ hx
    · exact Nat.mod_lt _ hy
    · exact Nat.mod_lt _ hy

theorem moveAllAux_length (d : Nat × Nat) (as : List Agent) (i : Nat) (g : Grid)
    (rng : Rng) : (moveAllAux d as i g rng).1.length = as.length := by
  induction as generalizing i g rng with
  | nil => rfl
  | cons a rest ih =>
    simp only [moveAllAux, List.length_cons]
    rw [ih]

theorem moveAllAux_get (d : Nat × Nat) (as : List Agent) (i : Nat) (g : Grid)
    (rng : Rng) (j : Nat) :
    (getAgent (moveAllAux d as i g rng).1 j).agent_type = (getAgent as j).agent_type ∧
    (getAgent (moveAllAux d as i g rng).1 j).tick = (getAgent as j).tick := by
  induction as generalizing i g rng j with
  | nil => exact ⟨rfl, rfl⟩
  | cons a rest ih =>
    cases j with
    | zero =>
      simp only [moveAllAux, getAgent_cons_zero]
      exact ⟨move_agent_type a d rng, move_agent_tick a d rng⟩
    | succ j =>
      simp only [moveAllAux, getAgent_cons_succ]
      exact ih (i + 1) _ _ j

theorem moveAllAux_mem_bounds (d : Nat × Nat) (as : List Agent) (i : Nat) (g : Grid)
    (rng : Rng) (hx : 0 < d.1) (hy : 0 < d.2)
    (hall : ∀ a ∈ as, a.x < d.1 ∧ a.y < d.2) :
    ∀ b ∈ (moveAllAux d as i g rng).1, b.x < d.1 ∧ b.y < d.2 := by
  induction as generalizing i g rng with
  | nil => intro b hb; cases hb
  | cons a rest ih =>
    intro b hb
    simp only [moveAllAux, List.mem_cons] at hb
    rcases hb with rfl | hb
    · exact move_agent_bounds a d rng hx hy (hall a (List.mem_cons_self a rest)).1
        (hall a (List.mem_cons_self a rest)).2
    · exact ih (i + 1) _ _ (fun a' ha' => hall a' (List.mem_cons_of_mem _ ha')) b hb

theorem moveAllAux_grid (d : Nat × Nat) (as : List Agent) (i : Nat) (g : Grid)
    (rng : Rng) :
    (moveAllAux d as i g rng).2.1 =
      registerAll ((moveAllAux d as i g rng).1.enumFrom i) g := by
  induction as generalizing i g rng with
  | nil => rfl
  | cons a rest ih =>
    simp only [moveAllAux, List.enumFrom_cons]
    exact ih (i + 1) _ _

theorem move_all_agents (e : Environment) (rng : Rng) :
    (move_all e rng).1.agents = (moveAllAux e.grid_size e.agents 0 emptyGrid rng).1 := rfl

theorem move_all_grid (e : Environment) (rng : Rng) :
    (move_all e rng).1.grid =
      registerAll ((move_all e rng).1.agents.enumFrom 0) emptyGrid :=
  moveAllAux_grid e.grid_size e.agents 0 emptyGrid rng

theorem move_all_tick (e : Environment) (rng : Rng) :
    (move_all e rng).1.tick = e.tick := rfl

theorem move_all_grid_size (e : Environment) (rng : Rng) :
    (move_all e rng).1.grid_size = e.grid_size := rfl

theorem move_all_duration (e : Environment) (rng : Rng) :
    (move_all e rng).1.duration = e.duration := rfl

/-! ### Characterisation of the rebuilt spatial index -/

theorem gridInsert_getD (g : Grid) (key c : Nat × Nat) (i : Nat) :
    ((gridInsert g key i) c).getD [] =
      (g c).getD [] ++ (if c = key then [i] else []) := by
  simp only [gridInsert]
  by_cases h : c = key
  · subst h
    simp
  · simp [h]

theorem gridInsert_isSome (g : Grid) (key : Nat × Nat) (i : Nat) (c : Nat × Nat)
    (h : (g c).isSome) : ((gridInsert g key i) c).isSome := by
  simp only [gridInsert]
  split
  · rfl
  · exact h

theorem gridInsert_isSome_self (g : Grid) (key : Nat × Nat) (i : Nat) :
    ((gridInsert g key i) key).isSome := by
  simp [gridInsert]

theorem registerAll_getD (pairs : List (Nat × Agent)) (g : Grid) (c : Nat × Nat) :
    ((registerAll pairs g) c).getD [] =
      (g c).getD [] ++
        ((pairs.filter (fun q => decide ((q.2.x, q.2.y) = c))).map Prod.fst) := by
  induction pairs generalizing g with
  | nil => simp [registerAll]
  | cons q rest ih =>
    have hstep : registerAll (q :: rest) g =
        registerAll rest (gridInsert g (q.2.x, q.2.y) q.1) := rfl
    rw [hstep, ih, gridInsert_getD, List.filter_cons]
    by_cases h : (q.2.x, q.2.y) = c
    · simp [h, List.append_assoc]
    · simp [h, Ne.symm h]

theorem registerAll_isSome_mono (pairs : List (Nat × Agent)) (g : Grid)
    (c : Nat × Nat) (h : (g c).isSome) : ((registerAll pairs g) c).isSome := by
  induction pairs generalizing g with
  | nil => exact h
  | cons q rest ih => exact ih _ (gridInsert_isSome g _ q.1 c h)

theorem registerAll_isSome_of_mem (pairs : List (Nat × Agent)) (g : Grid)
    {i : Nat} {a : Agent} (h : (i, a) ∈ pairs) :
    ((registerAll pairs g) (a.x, a.y)).isSome := by
  induction pairs generalizing g with
  | nil => cases h
  | cons q rest ih =>
    rcases List.mem_cons.1 h with rfl | h'
    · exact registerAll_isSome_mono rest _ _ (gridInsert_isSome_self g _ _)
    · exact ih _ h'

theorem count_enumFrom_filter (c : Nat × Nat) (idx : Nat) (as : List Agent) (j : Nat) :
    List.count idx
      (((as.enumFrom j).filter (fun q => decide ((q.2.x, q.2.y) = c))).map Prod.fst) =
      if j ≤ idx ∧ idx - j < as.length ∧
         ((getAgent as (idx - j)).x, (getAgent as (idx - j)).y) = c
      then 1 else 0 := by
  induction as generalizing j with
  | nil =>
    simp only [List.enumFrom_nil, List.filter_nil, List.map_nil, List.count_nil,
      List.length_nil]
    rw [if_neg (by rintro ⟨-, h2, -⟩; omega)]
  | cons a rest ih =>
    rw [List.enumFrom_cons, List.filter_cons]
    by_cases hij : idx = j
    · subst hij
      by_cases hpos : ((a.x, a.y) = c)
      · rw [if_pos (by simpa using hpos), List.map_cons, List.count_cons, ih (idx + 1)]
        rw [if_neg (by rintro ⟨h1, -, -⟩; omega :
          ¬(idx + 1 ≤ idx ∧ idx - (idx + 1) < rest.length ∧
            ((getAgent rest (idx - (idx + 1))).x, (getAgent rest (idx - (idx + 1))).y) = c))]
        have hcond : idx ≤ idx ∧ idx - idx < (a :: rest).length ∧
            ((getAgent (a :: rest) (idx - idx)).x,
              (getAgent (a :: rest) (idx - idx)).y) = c := by
          refine ⟨Nat.le_refl idx, by simp, ?_⟩
          rw [Nat.sub_self, getAgent_cons_zero]
          exact hpos
        rw [if_pos hcond]
        simp
      · rw [if_neg (by simpa using hpos), ih (idx + 1)]
        rw [if_neg (by rintro ⟨h1, -, -⟩; omega :
          ¬(idx + 1 ≤ idx ∧ idx - (idx + 1) < rest.length ∧
            ((getAgent rest (idx - (idx + 1))).x, (getAgent rest (idx - (idx + 1))).y) = c))]
        rw [if_neg (?_ :
          ¬(idx ≤ idx ∧ idx - idx < (a :: rest).length ∧
            ((getAgent (a :: rest) (idx - idx)).x,
              (getAgent (a :: rest) (idx - idx)).y) = c))]
        rintro ⟨-, -, h3⟩
        rw [Nat.sub_self, getAgent_cons_zero] at h3
        exact hpos h3
    · by_cases hlt : j + 1 ≤ idx
      · have hsub : idx - j = (idx - (j + 1)) + 1 := by omega
        rw [List.length_cons, hsub, getAgent_cons_succ]
        have hiff : (j + 1 ≤ idx ∧ idx - (j + 1) < rest.length ∧
            ((getAgent rest (idx - (j + 1))).x, (getAgent rest (idx - (j + 1))).y) = c) ↔
            (j ≤ idx ∧ idx - (j + 1) + 1 < rest.length + 1 ∧
            ((getAgent rest (idx - (j + 1))).x, (getAgent rest (idx - (j + 1))).y) = c) := by
          constructor
          · rintro ⟨h1, h2, h3⟩
            exact ⟨by omega, by omega, h3⟩
          · rintro ⟨h1, h2, h3⟩
            exact ⟨by omega, by omega, h3⟩
        by_cases hpos : ((a.x, a.y) = c)
        · rw [if_pos (by simpa using hpos), List.map_cons, List.count_cons, ih (j + 1)]
          rw [if_neg (by simp [Ne.symm hij] : ¬(((j, a).1 == idx) = true))]
          rw [if_congr hiff rfl rfl]
          simp
        · rw [if_neg (by simpa using hpos), ih (j + 1)]
          rw [if_congr hiff rfl rfl]
      · have hni : ¬(j + 1 ≤ idx ∧ idx - (j + 1) < rest.length ∧
            ((getAgent rest (idx - (j + 1))).x, (getAgent rest (idx - (j + 1))).y) = c) := by
          rintro ⟨h1, -, -⟩
          omega
        have hng : ¬(j ≤ idx ∧ idx - j < (a :: rest).length ∧
            ((getAgent (a :: rest) (idx - j)).x, (getAgent (a :: rest) (idx - j)).y) = c) := by
          rintro ⟨h1, -, -⟩
          omega
        by_cases hpos : ((a.x, a.y) = c)
        · rw [if_pos (by simpa using hpos), List.map_cons, List.count_cons, ih (j + 1),
            if_neg hni, if_neg hng]
          simp [Ne.symm hij]
        · rw [if_neg (by simpa using hpos), ih (j + 1), if_neg hni, if_neg hng]

/-! ### One full tick -/

theorem stepOnce_tick (e : Environment) (rng : Rng) :
    (stepOnce e rng).1.tick = e.tick + 1 := rfl

theorem stepOnce_grid_size (e : Environment) (rng : Rng) :
    (stepOnce e rng).1.grid_size = e.grid_size := rfl

theorem stepOnce_duration (e : Environment) (rng : Rng) :
    (stepOnce e rng).1.duration = e.duration := rfl

theorem stepOnce_stats (e : Environment) (rng : Rng) :
    (stepOnce e rng).1.stats = (stepOnce e rng).1.get_statistics := rfl

theorem stepOnce_agents (e : Environment) (rng : Rng) :
    (stepOnce e rng).1.agents =
      (move_all (Environment.update_type { e with tick := e.tick + 1 } rng).1
        (Environment.update_type { e with tick := e.tick + 1 } rng).2).1.agents := rfl

theorem stepOnce_grid (e : Environment) (rng : Rng) :
    (stepOnce e rng).1.grid =
      registerAll ((stepOnce e rng).1.agents.enumFrom 0) emptyGrid :=
  moveAllAux_grid _ _ 0 emptyGrid _

theorem stepOnce_agents_length (e : Environment) (rng : Rng) :
    (stepOnce e rng).1.agents.length = e.agents.length := by
  rw [stepOnce_agents, move_all_agents, moveAllAux_length]
  exact update_type_length { e with tick := e.tick + 1 } rng

theorem stepOnce_get (e : Environment) (rng : Rng) (i : Nat) :
    ∃ b, agentStep (e.tick + 1) e.duration (getAgent e.agents i) b ∧
      (getAgent (stepOnce e rng).1.agents i).agent_type = b.agent_type ∧
      (getAgent (stepOnce e rng).1.agents i).tick = b.tick := by
  have hu := update_type_get { e with tick := e.tick + 1 } rng i
  have hm := moveAllAux_get
    (Environment.update_type { e with tick := e.tick + 1 } rng).1.grid_size
    (Environment.update_type { e with tick := e.tick + 1 } rng).1.agents 0 emptyGrid
    (Environment.update_type { e with tick := e.tick + 1 } rng).2 i
  exact ⟨getAgent (Environment.update_type { e with tick := e.tick + 1 } rng).1.agents i,
    hu, hm.1, hm.2⟩

/-! ### Counting and summation over pointwise-related populations -/

theorem countP_le_of_pointwise (p : Agent → Bool) (l₁ l₂ : List Agent)
    (hlen : l₁.length = l₂.length)
    (hp : ∀ i, i < l₁.length → p (getAgent l₁ i) = true → p (getAgent l₂ i) = true) :
    l₁.countP p ≤ l₂.countP p := by
  induction l₁ generalizing l₂ with
  | nil => simp
  | cons a t ih =>
    cases l₂ with
    | nil => simp at hlen
    | cons b t₂ =>
      rw [List.countP_cons, List.countP_cons]
      have h0 : p a = true → p b = true := by
        have := hp 0 (by simp)
        simpa [getAgent_cons_zero] using this
      have htail : t.countP p ≤ t₂.countP p := by
        refine ih t₂ (by simpa using hlen) ?_
        intro i hi hpi
        have := hp (i + 1) (by simp only [List.length_cons]; omega)
        rw [getAgent_cons_succ, getAgent_cons_succ] at this
        exact this hpi
      by_cases hpa : p a = true
      · rw [if_pos hpa, if_pos (h0 hpa)]
        omega
      · rw [if_neg hpa]
        split <;> omega

theorem sum_le_of_pointwise (f g : Agent → Nat) (l₁ l₂ : List Agent)
    (hlen : l₁.length = l₂.length)
    (hp : ∀ i, i < l₁.length → g (getAgent l₂ i) ≤ f (getAgent l₁ i)) :
    (l₂.map g).sum ≤ (l₁.map f).sum := by
  induction l₁ generalizing l₂ with
  | nil =>
    cases l₂ with
    | nil => simp
    | cons b t₂ => simp at hlen
  | cons a t ih =>
    cases l₂ with
    | nil => simp at hlen
    | cons b t₂ =>
      rw [List.map_cons, List.map_cons, List.sum_cons, List.sum_cons]
      have h0 := hp 0 (by simp)
      rw [getAgent_cons_zero, getAgent_cons_zero] at h0
      have htail : (t₂.map g).sum ≤ (t.map f).sum := by
        refine ih t₂ (by simpa using hlen) ?_
        intro i hi
        have := hp (i + 1) (by simp only [List.length_cons]; omega)
        rw [getAgent_cons_succ, getAgent_cons_succ] at this
        exact this
      omega

theorem sum_lt_of_pointwise (f g : Agent → Nat) (l₁ l₂ : List Agent)
    (hlen : l₁.length = l₂.length)
    (hp : ∀ i, i < l₁.length → g (getAgent l₂ i) ≤ f (getAgent l₁ i))
    (hex : ∃ i, i < l₁.length ∧ g (getAgent l₂ i) < f (getAgent l₁ i)) :
    (l₂.map g).sum < (l₁.map f).sum := by
  induction l₁ generalizing l₂ with
  | nil =>
    obtain ⟨i, hi, -⟩ := hex
    simp at hi
  | cons a t ih =>
    cases l₂ with
    | nil => simp at hlen
    | cons b t₂ =>
      rw [List.map_cons, List.map_cons, List.sum_cons, List.sum_cons]
      have h0 := hp 0 (by simp)
      rw [getAgent_cons_zero, getAgent_cons_zero] at h0
      have hptail : ∀ i, i < t.length → g (getAgent t₂ i) ≤ f (getAgent t i) := by
        intro i hi
        have := hp (i + 1) (by simp only [List.length_cons]; omega)
        rw [getAgent_cons_succ, getAgent_cons_succ] at this
        exact this
      obtain ⟨i, hi, hlt⟩ := hex
      cases i with
      | zero =>
        rw [getAgent_cons_zero, getAgent_cons_zero] at hlt
        have htail := sum_le_of_pointwise f g t t₂ (by simpa using hlen) hptail
        omega
      | succ i =>
        have hlt' : g (getAgent t₂ i) < f (getAgent t i) := by
          rw [getAgent_cons_succ, getAgent_cons_succ] at hlt
          exact hlt
        have htail := ih t₂ (by simpa using hlen) hptail
          ⟨i, by simp only [List.length_cons] at hi; omega, hlt'⟩
        omega

theorem pot_congr (D T : Nat) (a b : Agent) (hty : b.agent_type = a.agent_type)
    (htk : b.tick = a.tick) : pot D T b = pot D T a := by
  simp only [pot, hty, htk]

/-! ### State invariants along a run -/

/-- Every agent's `last_transition_tick` is at most the current simulation
tick, so `tick - agent.tick` in the transition pass never underflows. -/
def TickBound (e : Environment) : Prop :=
  ∀ a ∈ e.agents, a.tick ≤ e.tick

/-- Every infected agent is within the infectious window. -/
def WindowInv (e : Environment) : Prop :=
  ∀ a ∈ e.agents, a.agent_type = AgentType.AgentI → e.tick - a.tick ≤ e.duration

/-- The spatial index has an entry at every agent's current position. -/
def GridOK (e : Environment) : Prop :=
  ∀ a ∈ e.agents, (e.grid (a.x, a.y)).isSome

theorem mem_enumFrom_of_index {l : List Agent} : ∀ {i : Nat}, i < l.length →
    ∀ (j : Nat), (j + i, getAgent l i) ∈ l.enumFrom j := by
  induction l with
  | nil => intro i hi; simp at hi
  | cons a t ih =>
    intro i hi j
    cases i with
    | zero =>
      rw [List.enumFrom_cons, getAgent_cons_zero]
      exact List.mem_cons_self _ _
    | succ i =>
      rw [List.enumFrom_cons, getAgent_cons_succ]
      have := ih (by simpa using Nat.lt_of_succ_lt_succ hi) (j + 1)
      have harith : j + 1 + i = j + (i + 1) := by omega
      rw [harith] at this
      exact List.mem_cons_of_mem _ this

theorem tickBound_stepOnce (e : Environment) (rng : Rng) (h : TickBound e) :
    TickBound (stepOnce e rng).1 := by
  intro a ha
  obtain ⟨i, hi, hget⟩ := exists_index_of_mem ha
  obtain ⟨b, hstep, hty, htk⟩ := stepOnce_get e rng i
  rw [stepOnce_agents_length] at hi
  have hmem := mem_of_index (l := e.agents) (i := i) hi
  have htick := h _ hmem
  rw [stepOnce_tick, ← hget, htk]
  exact agentStep_tick_le hstep (by omega)

theorem windowInv_stepOnce (e : Environment) (rng : Rng) (h : TickBound e) :
    WindowInv (stepOnce e rng).1 := by
  intro a ha hI
  obtain ⟨i, hi, hget⟩ := exists_index_of_mem ha
  obtain ⟨b, hstep, hty, htk⟩ := stepOnce_get e rng i
  rw [stepOnce_agents_length] at hi
  have htick := h _ (mem_of_index (l := e.agents) (i := i) hi)
  rw [stepOnce_tick, stepOnce_duration, ← hget, htk]
  exact agentStep_window hstep (by rw [← hty, hget]; exact hI)

theorem gridOK_stepOnce (e : Environment) (rng : Rng) : GridOK (stepOnce e rng).1 := by
  intro a ha
  obtain ⟨i, hi, hget⟩ := exists_index_of_mem ha
  rw [stepOnce_grid, ← hget]
  have hmem := mem_enumFrom_of_index hi 0
  rw [Nat.zero_add] at hmem
  exact registerAll_isSome_of_mem _ _ hmem

theorem simMeasure_stepOnce_lt (e : Environment) (rng : Rng)
    (htick : TickBound e) (hwin : WindowInv e)
    (hex : ∃ a ∈ e.agents, a.agent_type = AgentType.AgentI) :
    simMeasure (stepOnce e rng).1 < simMeasure e := by
  have hlen := stepOnce_agents_length e rng
  have hpoint : ∀ i, i < e.agents.length →
      pot e.duration (e.tick + 1) (getAgent (stepOnce e rng).1.agents i) ≤
        pot e.duration e.tick (getAgent e.agents i) ∧
      ((getAgent e.agents i).agent_type = AgentType.AgentI →
        pot e.duration (e.tick + 1) (getAgent (stepOnce e rng).1.agents i) <
          pot e.duration e.tick (getAgent e.agents i)) := by
    intro i hi
    obtain ⟨b, hstep, hty, htk⟩ := stepOnce_get e rng i
    have hmem := mem_of_index (l := e.agents) (i := i) hi
    have hpotb := agentStep_pot hstep (htick _ hmem) (hwin _ hmem)
    rw [pot_congr e.duration (e.tick + 1) b _ hty htk]
    exact hpotb
  obtain ⟨a, ha, haI⟩ := hex
  obtain ⟨i, hi, hget⟩ := exists_index_of_mem ha
  show ((stepOnce e rng).1.agents.map (pot (stepOnce e rng).1.duration
    (stepOnce e rng).1.tick)).sum < (e.agents.map (pot e.duration e.tick)).sum
  rw [stepOnce_duration, stepOnce_tick]
  exact sum_lt_of_pointwise (pot e.duration e.tick) (pot e.duration (e.tick + 1))
    e.agents (stepOnce e rng).1.agents hlen.symm (fun i hi => (hpoint i hi).1)
    ⟨i, hi, (hpoint i hi).2 (by rw [hget]; exact haI)⟩

/-- Link between the cached tally and the actual population: after any full
tick the cached tally is the recomputed census. -/
theorem stepOnce_stats_counts (e : Environment) (rng : Rng) :
    (stepOnce e rng).1.stats =
      ⟨countType AgentType.AgentS (stepOnce e rng).1.agents,
       countType AgentType.AgentI (stepOnce e rng).1.agents,
       countType AgentType.AgentR (stepOnce e rng).1.agents,
       countType AgentType.AgentD (stepOnce e rng).1.agents⟩ := by
  rw [stepOnce_stats, get_statistics_eq]

/-- If the cached infected tally is positive only when an infected agent
really exists, the `run` loop exits with the cached tally at zero once the
fuel covers the measure. -/
theorem runAux_terminates (fuel : Nat) : ∀ (e : Environment) (rng : Rng),
    TickBound e → WindowInv e →
    (0 < e.stats.infected → ∃ a ∈ e.agents, a.agent_type = AgentType.AgentI) →
    simMeasure e ≤ fuel →
    ((runAux fuel e rng).2.1).stats.infected = 0 := by
  induction fuel with
  | zero =>
    intro e rng htick hwin hlink hm
    rw [runAux]
    by_cases h : 0 < e.stats.infected
    · exfalso
      obtain ⟨a, ha, haI⟩ := hlink h
      have hpos : 0 < pot e.duration e.tick a := by
        have hw := hwin a ha haI
        have ht := htick a ha
        simp only [pot, haI]
        omega
      have hle : pot e.duration e.tick a ≤ simMeasure e := by
        have := List.single_le_sum (l := e.agents.map (pot e.duration e.tick))
          (by intro x hx; exact Nat.zero_le x) (pot e.duration e.tick a)
          (List.mem_map_of_mem _ ha)
        exact this
      omega
    · exact (by omega : e.stats.infected = 0)
  | succ fuel ih =>
    intro e rng htick hwin hlink hm
    rw [runAux]
    by_cases h : 0 < e.stats.infected
    · rw [if_pos h]
      obtain ⟨a, ha, haI⟩ := hlink h
      have hlt := simMeasure_stepOnce_lt e rng htick hwin ⟨a, ha, haI⟩
      refine ih (stepOnce e rng).1 (stepOnce e rng).2 (tickBound_stepOnce e rng htick)
        (windowInv_stepOnce e rng htick) ?_ (by omega)
      intro hpos
      rw [stepOnce_stats_counts] at hpos
      simp only at hpos
      exact countType_ne_zero.1 (by omega)
    · rw [if_neg h]
      exact (by omega : e.stats.infected = 0)

/-! ### Properties of the initial population -/

theorem initAgents_length (k x y : Nat) : ∀ (m i : Nat) (rng : Rng),
    (initAgents k x y m i rng).1.length = m := by
  intro m
  induction m with
  | zero => intro i rng; rfl
  | succ m ih =>
    intro i rng
    simp only [initAgents, List.length_cons]
    rw [ih]

theorem initAgents_tick (k x y : Nat) : ∀ (m i : Nat) (rng : Rng),
    ∀ a ∈ (initAgents k x y m i rng).1, a.tick = 0 := by
  intro m
  induction m with
  | zero => intro i rng a ha; cases ha
  | succ m ih =>
    intro i rng a ha
    simp only [initAgents, List.mem_cons] at ha
    rcases ha with rfl | ha
    · rfl
    · exact ih (i + 1) _ a ha

theorem initAgents_get_type (k x y : Nat) : ∀ (m i j : Nat) (rng : Rng), j < m →
    (getAgent (initAgents k x y m i rng).1 j).agent_type =
      (if i + j ≤ k then AgentType.AgentI else AgentType.AgentS) := by
  intro m
  induction m with
  | zero => intro i j rng hj; omega
  | succ m ih =>
    intro i j rng hj
    cases j with
    | zero =>
      show (getAgent (_ :: _) 0).agent_type = _
      rw [getAgent_cons_zero]
      simp only [Nat.add_zero]
    | succ j =>
      show (getAgent (_ :: _) (j + 1)).agent_type = _
      rw [getAgent_cons_succ, ih (i + 1) j _ (by omega)]
      exact if_congr (by omega) rfl rfl

theorem initAgents_countS (k x y : Nat) : ∀ (m i : Nat) (rng : Rng),
    countType AgentType.AgentS (initAgents k x y m i rng).1 = m - (k + 1 - i) := by
  intro m
  induction m with
  | zero =>
    intro i rng
    show countType AgentType.AgentS [] = 0 - (k + 1 - i)
    rw [countType_nil]
    omega
  | succ m ih =>
    intro i rng
    show countType AgentType.AgentS (_ :: _) = _
    rw [countType_cons, ih (i + 1)]
    by_cases h : i ≤ k
    · rw [if_neg (by simp [h])]
      omega
    · rw [if_pos (by simp [h])]
      omega

theorem initAgents_bounds (k x y : Nat) (hx : 0 < x) (hy : 0 < y) :
    ∀ (m i : Nat) (rng : Rng), ∀ a ∈ (initAgents k x y m i rng).1, a.x < x ∧ a.y < y := by
  intro m
  induction m with
  | zero => intro i rng a ha; cases ha
  | succ m ih =>
    intro i rng a ha
    simp only [initAgents, List.mem_cons] at ha
    rcases ha with rfl | ha
    · constructor
      · show 0 + _ % (x - 0) < x
        simp only [Nat.zero_add, Nat.sub_zero]
        exact Nat.mod_lt _ hx
      · show 0 + _ % (y - 0) < y
        simp only [Nat.zero_add, Nat.sub_zero]
        exact Nat.mod_lt _ hy
    · exact ih (i + 1) _ a ha

theorem init_ok_eq {n k d : Nat} {p : ℚ} {x y : Nat} {rng : Rng}
    {er : Environment × Rng}
    (h : Environment.init n k d p x y rng = Except.ok er) :
    er = Environment.initCore n k d p x y rng ∧ x ≠ 0 ∧ y ≠ 0 ∧ k ≤ n := by
  rw [Environment.init] at h
  split at h
  · cases h
  · split at h
    · cases h
    · split at h
      · cases h
      · rename_i hx hy hk
        cases h
        exact ⟨rfl, hx, hy, by omega⟩

theorem init_ok_of_valid (n k d : Nat) (p : ℚ) (x y : Nat) (rng : Rng)
    (hx : x ≠ 0) (hy : y ≠ 0) (hk : k ≤ n) :
    Environment.init n k d p x y rng =
      Except.ok (Environment.initCore n k d p x y rng) := by
  rw [Environment.init, if_neg hx, if_neg hy, if_neg (by omega)]

theorem initCore_agents (n k d : Nat) (p : ℚ) (x y : Nat) (rng : Rng) :
    (Environment.initCore n k d p x y rng).1.agents = (initAgents k x y n 0 rng).1 := rfl

theorem initCore_stats (n k d : Nat) (p : ℚ) (x y : Nat) (rng : Rng) :
    (Environment.initCore n k d p x y rng).1.stats =
      ⟨n - k, k, 0, 0⟩ := rfl

theorem initCore_tick (n k d : Nat) (p : ℚ) (x y : Nat) (rng : Rng) :
    (Environment.initCore n k d p x y rng).1.tick = 0 := rfl

theorem initCore_duration (n k d : Nat) (p : ℚ) (x y : Nat) (rng : Rng) :
    (Environment.initCore n k d p x y rng).1.duration = d := rfl

theorem initCore_grid_size (n k d : Nat) (p : ℚ) (x y : Nat) (rng : Rng) :
    (Environment.initCore n k d p x y rng).1.grid_size = (x, y) := rfl

theorem initCore_grid (n k d : Nat) (p : ℚ) (x y : Nat) (rng : Rng) :
    (Environment.initCore n k d p x y rng).1.grid =
      registerAll ((Environment.initCore n k d p x y rng).1.agents.enumFrom 0)
        emptyGrid := by
  rw [initCore_agents, ← List.enum_eq_enumFrom]
  rfl

theorem initCore_tickBound (n k d : Nat) (p : ℚ) (x y : Nat) (rng : Rng) :
    TickBound (Environment.initCore n k d p x y rng).1 := by
  intro a ha
  rw [initCore_agents] at ha
  rw [initCore_tick, initAgents_tick k x y n 0 rng a ha]

theorem initCore_windowInv (n k d : Nat) (p : ℚ) (x y : Nat) (rng : Rng) :
    WindowInv (Environment.initCore n k d p x y rng).1 := by
  intro a ha _
  rw [initCore_agents] at ha
  rw [initCore_tick, initCore_duration, initAgents_tick k x y n 0 rng a ha]
  omega

theorem initCore_gridOK (n k d : Nat) (p : ℚ) (x y : Nat) (rng : Rng) :
    GridOK (Environment.initCore n k d p x y rng).1 := by
  intro a ha
  obtain ⟨i, hi, hget⟩ := exists_index_of_mem ha
  rw [initCore_grid, ← hget]
  have hmem := mem_enumFrom_of_index hi 0
  rw [Nat.zero_add] at hmem
  exact registerAll_isSome_of_mem _ _ hmem

theorem initCore_link (n k d : Nat) (p : ℚ) (x y : Nat) (rng : Rng) (hk : k ≤ n) :
    0 < (Environment.initCore n k d p x y rng).1.stats.infected →
      ∃ a ∈ (Environment.initCore n k d p x y rng).1.agents,
        a.agent_type = AgentType.AgentI := by
  intro hpos
  rw [initCore_stats] at hpos
  simp only at hpos
  have hn : 0 < n := by omega
  have hlen : 0 < (Environment.initCore n k d p x y rng).1.agents.length := by
    rw [initCore_agents, initAgents_length]
    exact hn
  refine ⟨getAgent (Environment.initCore n k d p x y rng).1.agents 0,
    mem_of_index hlen, ?_⟩
  rw [initCore_agents]
  rw [initAgents_get_type k x y n 0 0 rng (by rw [initCore_agents, initAgents_length] at hlen; exact hlen)]
  rw [if_pos (by omega)]

/-! ### Evolution of the compartment counts -/

theorem stepOnce_type_facts (e : Environment) (rng : Rng) (i : Nat) :
    ((getAgent (stepOnce e rng).1.agents i).agent_type = AgentType.AgentS →
      (getAgent e.agents i).agent_type = AgentType.AgentS) ∧
    ((getAgent e.agents i).agent_type = AgentType.AgentR →
      (getAgent (stepOnce e rng).1.agents i).agent_type = AgentType.AgentR) ∧
    ((getAgent e.agents i).agent_type = AgentType.AgentD →
      (getAgent (stepOnce e rng).1.agents i).agent_type = AgentType.AgentD) ∧
    ((getAgent (stepOnce e rng).1.agents i).agent_type = AgentType.AgentI →
      (getAgent e.agents i).agent_type = AgentType.AgentS ∨
      (getAgent e.agents i).agent_type = AgentType.AgentI) := by
  obtain ⟨b, hstep, hty, htk⟩ := stepOnce_get e rng i
  rw [hty]
  rcases agentStep_type hstep with heq | ⟨haS, hbI⟩ | ⟨haI, hbRD⟩
  · rw [heq]
    exact ⟨fun h => h, fun h => h, fun h => h, fun h => Or.inr h⟩
  · refine ⟨fun h => ?_, fun h => ?_, fun h => ?_, fun _ => Or.inl haS⟩
    · rw [hbI] at h
      cases h
    · rw [haS] at h
      cases h
    · rw [haS] at h
      cases h
  · refine ⟨fun h => ?_, fun h => ?_, fun h => ?_, fun _ => Or.inr haI⟩
    · rcases hbRD with hb | hb <;> rw [hb] at h <;> cases h
    · rw [haI] at h
      cases h
    · rw [haI] at h
      cases h

theorem stepOnce_counts_mono (e : Environment) (rng : Rng) :
    countType AgentType.AgentS (stepOnce e rng).1.agents ≤
      countType AgentType.AgentS e.agents ∧
    countType AgentType.AgentR e.agents ≤
      countType AgentType.AgentR (stepOnce e rng).1.agents ∧
    countType AgentType.AgentD e.agents ≤
      countType AgentType.AgentD (stepOnce e rng).1.agents := by
  have hlen := stepOnce_agents_length e rng
  refine ⟨?_, ?_, ?_⟩
  · refine countP_le_of_pointwise _ _ _ hlen ?_
    intro i hi hp
    simp only [decide_eq_true_eq] at hp ⊢
    exact (stepOnce_type_facts e rng i).1 hp
  · refine countP_le_of_pointwise _ _ _ hlen.symm ?_
    intro i hi hp
    simp only [decide_eq_true_eq] at hp ⊢
    exact (stepOnce_type_facts e rng i).2.1 hp
  · refine countP_le_of_pointwise _ _ _ hlen.symm ?_
    intro i hi hp
    simp only [decide_eq_true_eq] at hp ⊢
    exact (stepOnce_type_facts e rng i).2.2.1 hp

/-! ### The recorded time series -/

theorem runAux_conservation (fuel : Nat) : ∀ (e : Environment) (rng : Rng),
    ∀ t ∈ (runAux fuel e rng).1,
      t.susceptible + t.infected + t.recovered + t.dead = e.agents.length := by
  induction fuel with
  | zero =>
    intro e rng t ht
    cases ht
  | succ fuel ih =>
    intro e rng t ht
    by_cases h : 0 < e.stats.infected
    · have ht' : t ∈ (stepOnce e rng).1.stats ::
          (runAux fuel (stepOnce e rng).1 (stepOnce e rng).2).1 := by
        rw [runAux, if_pos h] at ht
        exact ht
      rcases List.mem_cons.1 ht' with rfl | htail
      · rw [stepOnce_stats_counts]
        show countType AgentType.AgentS _ + countType AgentType.AgentI _ +
          countType AgentType.AgentR _ + countType AgentType.AgentD _ = _
        rw [countType_sum, stepOnce_agents_length]
      · rw [← stepOnce_agents_length e rng]
        exact ih _ _ t htail
    · rw [runAux, if_neg h] at ht
      cases ht

/-- The monotone relation between consecutive tallies of the time series:
susceptible never grows, recovered and dead never shrink. -/
def TallyMono (s t : TallyStates) : Prop :=
  t.susceptible ≤ s.susceptible ∧ s.recovered ≤ t.recovered ∧ s.dead ≤ t.dead

theorem runAux_chain (fuel : Nat) : ∀ (e : Environment) (rng : Rng),
    countType AgentType.AgentS e.agents ≤ e.stats.susceptible →
    e.stats.recovered ≤ countType AgentType.AgentR e.agents →
    e.stats.dead ≤ countType AgentType.AgentD e.agents →
    List.Chain' TallyMono (e.stats :: (runAux fuel e rng).1) := by
  induction fuel with
  | zero =>
    intro e rng _ _ _
    exact List.chain'_singleton _
  | succ fuel ih =>
    intro e rng hS hR hD
    by_cases h : 0 < e.stats.infected
    · show List.Chain' TallyMono (e.stats :: (runAux (fuel + 1) e rng).1)
      rw [runAux, if_pos h]
      show List.Chain' TallyMono (e.stats :: (stepOnce e rng).1.stats ::
        (runAux fuel (stepOnce e rng).1 (stepOnce e rng).2).1)
      rw [List.chain'_cons]
      constructor
      · have hc := stepOnce_counts_mono e rng
        rw [stepOnce_stats_counts]
        exact ⟨Nat.le_trans hc.1 hS, Nat.le_trans hR hc.2.1, Nat.le_trans hD hc.2.2⟩
      · refine ih _ _ ?_ ?_ ?_ <;> rw [stepOnce_stats_counts]
    · show List.Chain' TallyMono (e.stats :: (runAux (fuel + 1) e rng).1)
      rw [runAux, if_neg h]
      exact List.chain'_singleton _

/-! ### Facts along the iterated tick trace -/

theorem simTrace_zero (e : Environment) (rng : Rng) : simTrace e rng 0 = (e, rng) := rfl

theorem simTrace_succ (e : Environment) (rng : Rng) (m : Nat) :
    simTrace e rng (m + 1) = stepPair (simTrace e rng m) := by
  rw [simTrace, simTrace, Function.iterate_succ_apply']

theorem simTrace_grid_size (e : Environment) (rng : Rng) (m : Nat) :
    (simTrace e rng m).1.grid_size = e.grid_size := by
  induction m with
  | zero => rfl
  | succ m ih =>
    rw [simTrace_succ]
    exact ih

theorem simTrace_invariants (e : Environment) (rng : Rng)
    (h1 : TickBound e) (h2 : WindowInv e) (h3 : GridOK e) (m : Nat) :
    TickBound (simTrace e rng m).1 ∧ WindowInv (simTrace e rng m).1 ∧
      GridOK (simTrace e rng m).1 := by
  induction m with
  | zero => exact ⟨h1, h2, h3⟩
  | succ m ih =>
    rw [simTrace_succ]
    exact ⟨tickBound_stepOnce _ _ ih.1, windowInv_stepOnce _ _ ih.1,
      gridOK_stepOnce _ _⟩

theorem bounds_stepOnce (e : Environment) (rng : Rng)
    (hx : 0 < e.grid_size.1) (hy : 0 < e.grid_size.2)
    (hall : ∀ a ∈ e.agents, a.x < e.grid_size.1 ∧ a.y < e.grid_size.2) :
    ∀ a ∈ (stepOnce e rng).1.agents, a.x < e.grid_size.1 ∧ a.y < e.grid_size.2 := by
  intro a ha
  rw [stepOnce_agents, move_all_agents] at ha
  refine moveAllAux_mem_bounds _ _ 0 emptyGrid _ hx hy ?_ a ha
  intro b hb
  obtain ⟨i, hi, hget⟩ := exists_index_of_mem hb
  have hstep := update_type_get { e with tick := e.tick + 1 } rng i
  have hpos := agentStep_pos hstep
  rw [hget] at hpos
  rw [update_type_length] at hi
  have hmem := mem_of_index (l := e.agents) (i := i) hi
  rw [hpos.1, hpos.2]
  exact hall _ hmem

theorem simTrace_bounds (e : Environment) (rng : Rng)
    (hx : 0 < e.grid_size.1) (hy : 0 < e.grid_size.2)
    (hall : ∀ a ∈ e.agents, a.x < e.grid_size.1 ∧ a.y < e.grid_size.2) (m : Nat) :
    ∀ a ∈ (simTrace e rng m).1.agents, a.x < e.grid_size.1 ∧ a.y < e.grid_size.2 := by
  induction m with
  | zero => exact hall
  | succ m ih =>
    rw [simTrace_succ]
    have hgs := simTrace_grid_size e rng m
    have := bounds_stepOnce (simTrace e rng m).1 (simTrace e rng m).2
      (by rw [hgs]; exact hx) (by rw [hgs]; exact hy)
      (by rw [hgs]; exact ih)
    rw [hgs] at this
    exact this

theorem simTrace_grid_char (e : Environment) (rng : Rng)
    (h0 : e.grid = registerAll (e.agents.enumFrom 0) emptyGrid) (m : Nat) :
    (simTrace e rng m).1.grid =
      registerAll ((simTrace e rng m).1.agents.enumFrom 0) emptyGrid := by
  cases m with
  | zero => exact h0
  | succ m =>
    rw [simTrace_succ]
    exact stepOnce_grid _ _

theorem grid_count_char (as : List Agent) (i : Nat) (hi : i < as.length)
    (c : Nat × Nat) :
    List.count i ((registerAll (as.enumFrom 0) emptyGrid c).getD []) =
      if c = ((getAgent as i).x, (getAgent as i).y) then 1 else 0 := by
  rw [registerAll_getD]
  show List.count i ([] ++ _) = _
  rw [List.nil_append, count_enumFrom_filter c i as 0]
  by_cases hc : ((getAgent as i).x, (getAgent as i).y) = c
  · rw [if_pos ⟨Nat.zero_le i, by simpa using hi, by simpa using hc⟩, if_pos hc.symm]
  · rw [if_neg (by rintro ⟨-, -, h3⟩; exact hc h3 :
      ¬(0 ≤ i ∧ i - 0 < as.length ∧
        ((getAgent as (i - 0)).x, (getAgent as (i - 0)).y) = c)),
      if_neg (fun hcc => hc hcc.symm)]

/-- Compartment of agent `i` after `t` full ticks of the simulation. -/
def typeAt (e : Environment) (rng : Rng) (i t : Nat) : AgentType :=
  (getAgent (simTrace e rng t).1.agents i).agent_type

theorem typeAt_step (e : Environment) (rng : Rng) (i t : Nat) :
    (typeAt e rng i (t + 1) = AgentType.AgentS → typeAt e rng i t = AgentType.AgentS) ∧
    (typeAt e rng i t = AgentType.AgentR → typeAt e rng i (t + 1) = AgentType.AgentR) ∧
    (typeAt e rng i t = AgentType.AgentD → typeAt e rng i (t + 1) = AgentType.AgentD) ∧
    (typeAt e rng i (t + 1) = AgentType.AgentI →
      typeAt e rng i t = AgentType.AgentS ∨ typeAt e rng i t = AgentType.AgentI) := by
  have hfacts := stepOnce_type_facts (simTrace e rng t).1 (simTrace e rng t).2 i
  simp only [typeAt, simTrace_succ]
  exact hfacts

theorem typeAt_S_mono (e : Environment) (rng : Rng) (i : Nat) :
    ∀ s t, typeAt e rng i (t + s) = AgentType.AgentS →
      typeAt e rng i t = AgentType.AgentS := by
  intro s
  induction s with
  | zero => exact fun t h => h
  | succ s ih =>
    intro t h
    have : typeAt e rng i (t + s) = AgentType.AgentS :=
      (typeAt_step e rng i (t + s)).1 (by rw [show t + s + 1 = t + (s + 1) from rfl]; exact h)
    exact ih t this

/-! ### The claims -/

/-- C1: the claim says `initialize` marks exactly the first `k` agents
(indices `0..k-1`) as `Infected`.  The code compares `i <= infected` with a
0-based index, so the first `k + 1` agents are infected: at the spec's own
example configuration (N = 25, k = 2) the agent at index 2 is `Infected`,
the cached tally says `{23, 2, 0, 0}` while the recomputed census of the
constructed population is `{22, 3, 0, 0}` — the code contradicts its own
cached statistics. -/
theorem C1_first_infected_off_by_one :
    Environment.init 25 2 10 (1/2 : ℚ) 10 10 ⟨zeroSource, 0⟩ =
      Except.ok (Environment.initCore 25 2 10 (1/2 : ℚ) 10 10 ⟨zeroSource, 0⟩) ∧
    (getAgent (Environment.initCore 25 2 10 (1/2 : ℚ) 10 10
      ⟨zeroSource, 0⟩).1.agents 2).agent_type = AgentType.AgentI ∧
    (Environment.initCore 25 2 10 (1/2 : ℚ) 10 10 ⟨zeroSource, 0⟩).1.stats =
      ⟨23, 2, 0, 0⟩ ∧
    (Environment.initCore 25 2 10 (1/2 : ℚ) 10 10 ⟨zeroSource, 0⟩).1.get_statistics =
      ⟨22, 3, 0, 0⟩ := by
  refine ⟨init_ok_of_valid 25 2 10 (1/2) 10 10 ⟨zeroSource, 0⟩ (by decide) (by decide)
    (by decide), ?_, ?_, ?_⟩ <;> decide

/-- C2: every entry of the time series returned by `run`, including the
initial snapshot, has its four (non-negative) fields summing to the
population size `N`. -/
theorem C2_conservation {n k d : Nat} {p : ℚ} {x y : Nat} {rng : Rng}
    {er : Environment × Rng}
    (h : Environment.init n k d p x y rng = Except.ok er) (rng' : Rng) (fuel : Nat) :
    ∀ t ∈ (Environment.run fuel er.1 rng').1,
      t.susceptible + t.infected + t.recovered + t.dead = n := by
  obtain ⟨rfl, hx, hy, hk⟩ := init_ok_eq h
  intro t ht
  have ht' : t ∈ (Environment.initCore n k d p x y rng).1.stats ::
      (runAux fuel (Environment.initCore n k d p x y rng).1 rng').1 := ht
  rcases List.mem_cons.1 ht' with rfl | htail
  · rw [initCore_stats]
    show (n - k) + k + 0 + 0 = n
    omega
  · have hcons := runAux_conservation fuel (Environment.initCore n k d p x y rng).1
      rng' t htail
    rw [initCore_agents, initAgents_length] at hcons
    exact hcons

/-- Witness for C2 at the concrete configuration
`initialize(N=1, k=1, duration=0, p_death=1, 1×1 grid)`. -/
theorem C2_conservation_witness :
    ((Environment.run 2 (Environment.initCore 1 1 0 (1 : ℚ) 1 1
        ⟨zeroSource, 0⟩).1 ⟨zeroSource, 0⟩).1.all fun t =>
      decide (t.susceptible + t.infected + t.recovered + t.dead = 1)) = true := by
  have h := C2_conservation (init_ok_of_valid 1 1 0 1 1 1 ⟨zeroSource, 0⟩ (by decide)
    (by decide) (by decide)) ⟨zeroSource, 0⟩ 2
  rw [List.all_eq_true]
  intro t ht
  exact decide_eq_true (h t ht)

/-- C3: for any successfully constructed simulation, the `while` loop of
`run` exits — with any fuel at least the termination measure, the final
state has zero infected, whatever the random source produced. -/
theorem C3_termination {n k d : Nat} {p : ℚ} {x y : Nat} {rng : Rng}
    {er : Environment × Rng}
    (h : Environment.init n k d p x y rng = Except.ok er) (rng' : Rng) (fuel : Nat)
    (hfuel : simMeasure er.1 ≤ fuel) :
    ((Environment.run fuel er.1 rng').2.1).stats.infected = 0 := by
  obtain ⟨rfl, hx, hy, hk⟩ := init_ok_eq h
  exact runAux_terminates fuel (Environment.initCore n k d p x y rng).1 rng'
    (initCore_tickBound n k d p x y rng) (initCore_windowInv n k d p x y rng)
    (initCore_link n k d p x y rng hk) hfuel

/-- Witness for C3: the single-agent scenario terminates within 2 ticks. -/
theorem C3_termination_witness :
    ((Environment.run 2 (Environment.initCore 1 1 0 (1 : ℚ) 1 1 ⟨zeroSource, 0⟩).1
        ⟨zeroSource, 0⟩).2.1).stats.infected = 0 :=
  C3_termination (init_ok_of_valid 1 1 0 1 1 1 ⟨zeroSource, 0⟩ (by decide) (by decide)
    (by decide)) ⟨zeroSource, 0⟩ 2 (by decide)

/-- C4 counterexample: the claim says every invalid configuration (including
`p_death` outside `[0,1]`) makes `initialize` fail with a configuration error
and not return a constructed simulation; but with `p_death = 2 > 1` the code
returns a fully constructed simulation. -/
theorem C4_counterexample :
    (1 < (2 : ℚ)) ∧
    Environment.init 2 1 5 (2 : ℚ) 3 3 ⟨zeroSource, 0⟩ =
      Except.ok (Environment.initCore 2 1 5 (2 : ℚ) 3 3 ⟨zeroSource, 0⟩) :=
  ⟨by decide, init_ok_of_valid 2 1 5 2 3 3 ⟨zeroSource, 0⟩ (by decide) (by decide)
    (by decide)⟩

/-- C4 amended: `init` performs no validation and raises no configuration
error; it fails (panics) exactly when the grid is zero-sized (`Uniform::new`)
or `k > N` (tally subtraction underflow), and succeeds for every other input
regardless of `p_death`. -/
theorem C4_amended_validation (n k d : Nat) (p : ℚ) (x y : Nat) (rng : Rng) :
    (∃ er, Environment.init n k d p x y rng = Except.ok er) ↔
      (x ≠ 0 ∧ y ≠ 0 ∧ k ≤ n) := by
  constructor
  · rintro ⟨er, h⟩
    exact (init_ok_eq h).2
  · rintro ⟨hx, hy, hk⟩
    exact ⟨_, init_ok_of_valid n k d p x y rng hx hy hk⟩

/-- Witness for the amended C4 at a concrete input. -/
theorem C4_amended_validation_witness :
    (∃ er, Environment.init 2 1 5 (2 : ℚ) 3 3 ⟨zeroSource, 0⟩ = Except.ok er) ↔
      ((3 : Nat) ≠ 0 ∧ (3 : Nat) ≠ 0 ∧ 1 ≤ 2) :=
  C4_amended_validation 2 1 5 2 3 3 ⟨zeroSource, 0⟩

/-- C5: in every state reachable from a successful `init` by whole ticks,
every agent's `last_transition_tick` is at most the current tick (so
`tick - agent.tick` in the transition pass cannot underflow), and the
spatial index has an entry at every infected agent's current position (so the
`self.grid[&(x, y)]` lookup cannot fail). -/
theorem C5_step_safety {n k d : Nat} {p : ℚ} {x y : Nat} {rng : Rng}
    {er : Environment × Rng}
    (h : Environment.init n k d p x y rng = Except.ok er) (rng' : Rng) (m : Nat) :
    (∀ a ∈ (simTrace er.1 rng' m).1.agents, a.tick ≤ (simTrace er.1 rng' m).1.tick) ∧
    (∀ a ∈ (simTrace er.1 rng' m).1.agents, a.agent_type = AgentType.AgentI →
      ((simTrace er.1 rng' m).1.grid (a.x, a.y)).isSome) := by
  obtain ⟨rfl, hx, hy, hk⟩ := init_ok_eq h
  have hinv := simTrace_invariants (Environment.initCore n k d p x y rng).1 rng'
    (initCore_tickBound n k d p x y rng) (initCore_windowInv n k d p x y rng)
    (initCore_gridOK n k d p x y rng) m
  exact ⟨hinv.1, fun a ha _ => hinv.2.2 a ha⟩

/-- Witness for C5 after one tick of the single-agent scenario. -/
theorem C5_step_safety_witness :
    (∀ a ∈ (simTrace (Environment.initCore 1 1 0 (1 : ℚ) 1 1 ⟨zeroSource, 0⟩).1
        ⟨zeroSource, 0⟩ 1).1.agents,
      a.tick ≤ (simTrace (Environment.initCore 1 1 0 (1 : ℚ) 1 1 ⟨zeroSource, 0⟩).1
        ⟨zeroSource, 0⟩ 1).1.tick) ∧
    (∀ a ∈ (simTrace (Environment.initCore 1 1 0 (1 : ℚ) 1 1 ⟨zeroSource, 0⟩).1
        ⟨zeroSource, 0⟩ 1).1.agents, a.agent_type = AgentType.AgentI →
      ((simTrace (Environment.initCore 1 1 0 (1 : ℚ) 1 1 ⟨zeroSource, 0⟩).1
        ⟨zeroSource, 0⟩ 1).1.grid (a.x, a.y)).isSome) :=
  C5_step_safety (init_ok_of_valid 1 1 0 1 1 1 ⟨zeroSource, 0⟩ (by decide) (by decide)
    (by decide)) ⟨zeroSource, 0⟩ 1

/-- C6: along any run, `Recovered` and `Dead` are absorbing, an agent can
only become `Infected` from `Susceptible` (`infect` is only applied to
susceptible agents), and each agent undergoes at most one
Susceptible-to-Infected transition. -/
theorem C6_single_infection (e : Environment) (rng : Rng) (i : Nat) :
    (∀ t, typeAt e rng i t = AgentType.AgentR →
      typeAt e rng i (t + 1) = AgentType.AgentR) ∧
    (∀ t, typeAt e rng i t = AgentType.AgentD →
      typeAt e rng i (t + 1) = AgentType.AgentD) ∧
    (∀ t, typeAt e rng i (t + 1) = AgentType.AgentI →
      typeAt e rng i t = AgentType.AgentS ∨ typeAt e rng i t = AgentType.AgentI) ∧
    (∀ t₁ t₂, typeAt e rng i t₁ = AgentType.AgentS →
      typeAt e rng i (t₁ + 1) = AgentType.AgentI →
      typeAt e rng i t₂ = AgentType.AgentS →
      typeAt e rng i (t₂ + 1) = AgentType.AgentI → t₁ = t₂) := by
  refine ⟨fun t => (typeAt_step e rng i t).2.1, fun t => (typeAt_step e rng i t).2.2.1,
    fun t => (typeAt_step e rng i t).2.2.2, ?_⟩
  have key : ∀ t₁ t₂, t₁ < t₂ →
      typeAt e rng i (t₁ + 1) = AgentType.AgentI →
      typeAt e rng i t₂ = AgentType.AgentS → False := by
    intro t₁ t₂ hlt hI hS
    have hs : (t₁ + 1) + (t₂ - (t₁ + 1)) = t₂ := by omega
    have hmono := typeAt_S_mono e rng i (t₂ - (t₁ + 1)) (t₁ + 1) (by rw [hs]; exact hS)
    rw [hmono] at hI
    cases hI
  intro t₁ t₂ h1S h1I h2S h2I
  rcases Nat.lt_trichotomy t₁ t₂ with h | h | h
  · exact (key t₁ t₂ h h1I h2S).elim
  · exact h
  · exact (key t₂ t₁ h h2I h1S).elim

/-- Witness for C6 in the one-agent scenario with a long infectious window:
the agent is infected at tick 1, and the becoming-infected clause applies. -/
theorem C6_single_infection_witness :
    typeAt (Environment.initCore 1 1 5 (1 : ℚ) 1 1 ⟨zeroSource, 0⟩).1
      ⟨zeroSource, 0⟩ 0 1 = AgentType.AgentI ∧
    (typeAt (Environment.initCore 1 1 5 (1 : ℚ) 1 1 ⟨zeroSource, 0⟩).1
        ⟨zeroSource, 0⟩ 0 0 = AgentType.AgentS ∨
      typeAt (Environment.initCore 1 1 5 (1 : ℚ) 1 1 ⟨zeroSource, 0⟩).1
        ⟨zeroSource, 0⟩ 0 0 = AgentType.AgentI) :=
  ⟨by decide,
    (C6_single_infection (Environment.initCore 1 1 5 (1 : ℚ) 1 1 ⟨zeroSource, 0⟩).1
      ⟨zeroSource, 0⟩ 0).2.2.1 0 (by decide)⟩

/-- C7: along the recorded time series, `recovered` and `dead` never
decrease and `susceptible` never increases between consecutive entries. -/
theorem C7_monotonicity {n k d : Nat} {p : ℚ} {x y : Nat} {rng : Rng}
    {er : Environment × Rng}
    (h : Environment.init n k d p x y rng = Except.ok er) (rng' : Rng) (fuel : Nat) :
    List.Chain' TallyMono (Environment.run fuel er.1 rng').1 := by
  obtain ⟨rfl, hx, hy, hk⟩ := init_ok_eq h
  show List.Chain' TallyMono ((Environment.initCore n k d p x y rng).1.stats ::
    (runAux fuel (Environment.initCore n k d p x y rng).1 rng').1)
  refine runAux_chain fuel _ rng' ?_ ?_ ?_
  · rw [initCore_stats, initCore_agents, initAgents_countS]
    show n - (k + 1 - 0) ≤ n - k
    omega
  · rw [initCore_stats]
    exact Nat.zero_le _
  · rw [initCore_stats]
    exact Nat.zero_le _

/-- Witness for C7 at the single-agent scenario. -/
theorem C7_monotonicity_witness :
    List.Chain' TallyMono (Environment.run 2
      (Environment.initCore 1 1 0 (1 : ℚ) 1 1 ⟨zeroSource, 0⟩).1 ⟨zeroSource, 0⟩).1 :=
  C7_monotonicity (init_ok_of_valid 1 1 0 1 1 1 ⟨zeroSource, 0⟩ (by decide) (by decide)
    (by decide)) ⟨zeroSource, 0⟩ 2

/-- C8: after initialisation and after every movement pass, every agent's
position lies inside the grid: `x < W` and `y < H`. -/
theorem C8_position_bounds {n k d : Nat} {p : ℚ} {x y : Nat} {rng : Rng}
    {er : Environment × Rng}
    (h : Environment.init n k d p x y rng = Except.ok er) (rng' : Rng) (m : Nat) :
    ∀ a ∈ (simTrace er.1 rng' m).1.agents, a.x < x ∧ a.y < y := by
  obtain ⟨rfl, hx, hy, hk⟩ := init_ok_eq h
  have hall : ∀ a ∈ (Environment.initCore n k d p x y rng).1.agents,
      a.x < (Environment.initCore n k d p x y rng).1.grid_size.1 ∧
      a.y < (Environment.initCore n k d p x y rng).1.grid_size.2 := by
    rw [initCore_agents]
    exact fun a ha =>
      initAgents_bounds k x y (Nat.pos_of_ne_zero hx) (Nat.pos_of_ne_zero hy) n 0 rng a ha
  have hres := simTrace_bounds (Environment.initCore n k d p x y rng).1 rng'
    (by rw [initCore_grid_size]; exact Nat.pos_of_ne_zero hx)
    (by rw [initCore_grid_size]; exact Nat.pos_of_ne_zero hy) hall m
  intro a ha
  have hb := hres a ha
  rw [initCore_grid_size] at hb
  exact hb

/-- Witness for C8 after one tick of the single-agent scenario. -/
theorem C8_position_bounds_witness :
    ((simTrace (Environment.initCore 1 1 0 (1 : ℚ) 1 1 ⟨zeroSource, 0⟩).1
        ⟨zeroSource, 0⟩ 1).1.agents.all fun a =>
      decide (a.x < 1) && decide (a.y < 1)) = true := by
  have h := C8_position_bounds (init_ok_of_valid 1 1 0 1 1 1 ⟨zeroSource, 0⟩ (by decide)
    (by decide) (by decide)) ⟨zeroSource, 0⟩ 1
  rw [List.all_eq_true]
  intro a ha
  have hb := h a ha
  simp [hb.1, hb.2]

/-- C9: in every reachable state the spatial index partitions the
population — each agent index occurs exactly once, in the cell keyed by that
agent's current position (dead agents included) — and the index rebuilt by
`move_all` does not depend on the previous grid (rebuilt from scratch, never
patched). -/
theorem C9_grid_partition {n k d : Nat} {p : ℚ} {x y : Nat} {rng : Rng}
    {er : Environment × Rng}
    (h : Environment.init n k d p x y rng = Except.ok er) (rng' : Rng) (m : Nat) :
    (∀ i, i < (simTrace er.1 rng' m).1.agents.length → ∀ c,
      List.count i (((simTrace er.1 rng' m).1.grid c).getD []) =
        if c = ((getAgent (simTrace er.1 rng' m).1.agents i).x,
                (getAgent (simTrace er.1 rng' m).1.agents i).y) then 1 else 0) ∧
    (∀ (e' : Environment) (g₁ g₂ : Grid) (rng₂ : Rng),
      (move_all { e' with grid := g₁ } rng₂).1.grid =
        (move_all { e' with grid := g₂ } rng₂).1.grid) := by
  obtain ⟨rfl, hx, hy, hk⟩ := init_ok_eq h
  constructor
  · intro i hi c
    rw [simTrace_grid_char _ _ (initCore_grid n k d p x y rng) m]
    exact grid_count_char _ i hi c
  · intro e' g₁ g₂ rng₂
    rfl

/-- Witness for C9 after one tick of the single-agent scenario. -/
theorem C9_grid_partition_witness :
    List.count 0 (((simTrace (Environment.initCore 1 1 0 (1 : ℚ) 1 1 ⟨zeroSource, 0⟩).1
        ⟨zeroSource, 0⟩ 1).1.grid (0, 0)).getD []) =
      if ((0 : Nat), (0 : Nat)) =
          ((getAgent (simTrace (Environment.initCore 1 1 0 (1 : ℚ) 1 1
            ⟨zeroSource, 0⟩).1 ⟨zeroSource, 0⟩ 1).1.agents 0).x,
           (getAgent (simTrace (Environment.initCore 1 1 0 (1 : ℚ) 1 1
            ⟨zeroSource, 0⟩).1 ⟨zeroSource, 0⟩ 1).1.agents 0).y) then 1 else 0 :=
  (C9_grid_partition (init_ok_of_valid 1 1 0 1 1 1 ⟨zeroSource, 0⟩ (by decide) (by decide)
    (by decide)) ⟨zeroSource, 0⟩ 1).1 0 (by decide) (0, 0)

/-- C10: the whole run is a deterministic function of the configuration and
the random source: identical sources yield identical time series, since every
draw is made in the fixed iteration order of the passes. -/
theorem C10_determinism (n k d : Nat) (p : ℚ) (x y : Nat) (fuel : Nat)
    (src₁ src₂ : RandomSource) (h : src₁ = src₂) :
    simulate n k d p x y src₁ fuel = simulate n k d p x y src₂ fuel := by
  rw [h]

/-- Witness for C10 at a concrete configuration and source. -/
theorem C10_determinism_witness :
    simulate 1 1 0 (1 : ℚ) 1 1 zeroSource 2 = simulate 1 1 0 (1 : ℚ) 1 1 zeroSource 2 :=
  C10_determinism 1 1 0 1 1 1 2 zeroSource zeroSource rfl
